import Mathlib

/-!
Shallow embedding of the minesweeper AI engine (`src/minesweeper.py`).

The engine consists of the `Sentence` class (a constraint "exactly `count`
of the cells in `cells` are mines") and the `MinesweeperAI` class (the
inference engine holding `moves_made`, `mines`, `safes`, `unclicked`
and `knowledge`).

Modelling decisions, all directly from the source:
  * a cell is an integer pair (Python tuples of ints; marking functions
    accept arbitrary cells, so coordinates live in `ℤ`);
  * Python `set` becomes `Finset`, Python `list` becomes `List`
    (`unclicked` and `knowledge` are lists in the source, with
    order-sensitive `remove`);
  * `Sentence.count` is a Python int that can go negative
    (`mark_mine` decrements unconditionally), so it is `ℤ`;
  * `add_knowledge` can raise `ValueError` at `self.unclicked.remove(cell)`
    when the cell is not in `unclicked`; we return the pair of the state
    at the raise point (the mutations already performed) and a completion
    flag, `false` meaning the call raised;
  * `random.choice` is modelled by an index supplied by the caller,
    reduced mod the length of the candidate list.
-/

namespace Minesweeper

/-- A board cell, `(row, col)`, as used by the Python code: an int pair. -/
abbrev Cell : Type := ℤ × ℤ

/-- Iterating a Python `set` of cells yields its elements in some order;
all the iterations in the source apply order-insensitive updates, so any
enumeration is faithful. We enumerate in lexicographic order. -/
def cellLe (a b : Cell) : Prop := toLex a ≤ toLex b

instance : DecidableRel cellLe := fun a b =>
  inferInstanceAs (Decidable (toLex a ≤ toLex b))

instance : IsTrans Cell cellLe := ⟨fun _ _ _ => le_trans⟩

instance : IsAntisymm Cell cellLe :=
  ⟨fun _ _ h1 h2 => toLex.injective (le_antisymm h1 h2)⟩

instance : IsTotal Cell cellLe := ⟨fun a b => le_total (toLex a) (toLex b)⟩

/-- The elements of a multiset of cells, enumerated in ascending order
(insertion sort; well-defined because two sorted permutations of each
other are equal). -/
def msCellList (m : Multiset Cell) : List Cell :=
  Quot.liftOn m (List.insertionSort cellLe) fun l1 l2 h =>
    List.eq_of_perm_of_sorted
      ((List.perm_insertionSort cellLe l1).trans
        ((Quotient.exact (Quot.sound h : (⟦l1⟧ : Multiset Cell) = ⟦l2⟧)).trans
          (List.perm_insertionSort cellLe l2).symm))
      (List.sorted_insertionSort cellLe l1)
      (List.sorted_insertionSort cellLe l2)

/-- The elements of a finite set of cells, enumerated in a fixed order. -/
def cellList (c : Finset Cell) : List Cell := msCellList c.val

/-- Python `class Sentence`: a set of cells and a mine count. -/
structure Sentence where
  cells : Finset Cell
  count : ℤ
  deriving DecidableEq

namespace Sentence

/-- `Sentence.known_mines`: returns `self.cells` when `count == len(cells)`,
else Python returns `None`. -/
def known_mines (s : Sentence) : Option (Finset Cell) :=
  if s.count = (s.cells.card : ℤ) then some s.cells else none

/-- `Sentence.known_safes`: returns `self.cells` when `count == 0`,
else Python returns `None`. -/
def known_safes (s : Sentence) : Option (Finset Cell) :=
  if s.count = 0 then some s.cells else none

/-- `Sentence.mark_mine`: if the cell is present, remove it and decrement
`count`; otherwise no-op. -/
def mark_mine (s : Sentence) (cell : Cell) : Sentence :=
  if cell ∈ s.cells then { cells := s.cells.erase cell, count := s.count - 1 }
  else s

/-- `Sentence.mark_safe`: if the cell is present, remove it, leaving `count`
unchanged; otherwise no-op. -/
def mark_safe (s : Sentence) (cell : Cell) : Sentence :=
  if cell ∈ s.cells then { cells := s.cells.erase cell, count := s.count }
  else s

end Sentence

/-- The state of Python `class MinesweeperAI`. -/
structure AI where
  height : ℕ
  width : ℕ
  moves_made : Finset Cell
  mines : Finset Cell
  safes : Finset Cell
  unclicked : List Cell
  knowledge : List Sentence
  deriving DecidableEq

namespace AI

/-- `MinesweeperAI.__init__(height, width)`: empty knowledge, `unclicked`
is every grid cell in row-major order. -/
def init (height width : ℕ) : AI :=
  { height := height
    width := width
    moves_made := ∅
    mines := ∅
    safes := ∅
    unclicked :=
      (List.range height).flatMap fun i : ℕ =>
        (List.range width).map fun j : ℕ => (((i : ℤ), (j : ℤ)) : Cell)
    knowledge := [] }

/-- `MinesweeperAI.mark_mine`: add to `mines` and propagate into every
sentence of `knowledge`. -/
def mark_mine (s : AI) (cell : Cell) : AI :=
  { s with
    mines := insert cell s.mines
    knowledge := s.knowledge.map (fun se => se.mark_mine cell) }

/-- `MinesweeperAI.mark_safe`: add to `safes` and propagate into every
sentence of `knowledge`. -/
def mark_safe (s : AI) (cell : Cell) : AI :=
  { s with
    safes := insert cell s.safes
    knowledge := s.knowledge.map (fun se => se.mark_safe cell) }

/-- `MinesweeperAI.make_inferences`: for every ordered pair of sentences
with `sentence1.cells` a strict subset of `sentence2.cells`, build the
difference sentence; then append each built sentence to `knowledge` unless
an equal sentence is already present (Python `__eq__`: same cell set and
same count). -/
def make_inferences (s : AI) : AI :=
  let new_knowledge : List Sentence :=
    s.knowledge.flatMap fun s1 =>
      s.knowledge.filterMap fun s2 =>
        if s1.cells ⊂ s2.cells then
          some { cells := s2.cells \ s1.cells, count := s2.count - s1.count }
        else none
  { s with
    knowledge :=
      new_knowledge.foldl
        (fun k ns => if ns ∈ k then k else k ++ [ns]) s.knowledge }

/-- `MinesweeperAI.check_obvious`: collect the empty sentences, the cells of
sentences whose `known_safes()` is not `None`, and the cells of sentences
whose `known_mines()` is not `None` (empty sentences are skipped before the
predicates run); remove the empty sentences from `knowledge`; then
`mark_safe` every collected safe cell and `mark_mine` every collected mine
cell. Python iterates the cells of a `set`; the marking operations commute,
so iterating a fixed enumeration (`cellList`) is observationally the same. -/
def check_obvious (s : AI) : AI :=
  let safe_cells : List Cell :=
    (s.knowledge.filter fun se => se.cells ≠ ∅ ∧ se.count = 0).flatMap
      fun se => cellList se.cells
  let mine_cells : List Cell :=
    (s.knowledge.filter fun se =>
        se.cells ≠ ∅ ∧ se.count = (se.cells.card : ℤ)).flatMap
      fun se => cellList se.cells
  let s1 : AI := { s with knowledge := s.knowledge.filter fun se => se.cells ≠ ∅ }
  let s2 : AI := safe_cells.foldl mark_safe s1
  mine_cells.foldl mark_mine s2

/-- The neighbor computation of `MinesweeperAI.add_knowledge` (lines
210-220): Python clamps the row range `i` by `self.width` and the column
range `j` by `self.height`, and keeps every `(i, j)` not in `moves_made`
(at the point where the comprehension runs, `cell` itself is already a
member of `moves_made`). -/
def unclicked_neighbors (width height : ℕ) (moves_made : Finset Cell)
    (cell : Cell) : List Cell :=
  let lower_bound_x : ℤ := max 0 (cell.1 - 1)
  let upper_bound_x : ℤ := min (width : ℤ) (cell.1 + 2)
  let lower_bound_y : ℤ := max 0 (cell.2 - 1)
  let upper_bound_y : ℤ := min (height : ℤ) (cell.2 + 2)
  ((List.range (upper_bound_x - lower_bound_x).toNat).map
      fun k => lower_bound_x + (k : ℤ)).flatMap fun i =>
    ((List.range (upper_bound_y - lower_bound_y).toNat).map
        fun k => lower_bound_y + (k : ℤ)).filterMap fun j =>
      if (i, j) ∈ moves_made then none else some (i, j)

/-- `MinesweeperAI.add_knowledge` up to, but not including, the retry
check at line 228: record the move, mark the cell safe, remove it from
`unclicked` (`none` when `list.remove` would raise `ValueError`, i.e. the
cell is not in `unclicked`), build the neighbor sentence, then run
`make_inferences` and `check_obvious` once. -/
def add_knowledge_core (s : AI) (cell : Cell) (count : ℤ) : Option AI :=
  let s1 : AI := { s with moves_made := insert cell s.moves_made }
  let s2 : AI := s1.mark_safe cell
  if cell ∈ s2.unclicked then
    let s3 : AI := { s2 with unclicked := s2.unclicked.erase cell }
    let neighbors : List Cell :=
      unclicked_neighbors s3.width s3.height s3.moves_made cell
    let s4 : AI :=
      { s3 with
        knowledge := s3.knowledge ++ [{ cells := neighbors.toFinset, count := count }] }
    some (s4.make_inferences.check_obvious)
  else none

/-- State reached by `MinesweeperAI.add_knowledge` at the instant the
`ValueError` from `self.unclicked.remove(cell)` propagates: `moves_made`
and the `mark_safe` call have already mutated the object. -/
def add_knowledge_partial (s : AI) (cell : Cell) : AI :=
  ({ s with moves_made := insert cell s.moves_made } : AI).mark_safe cell

/-- Full `MinesweeperAI.add_knowledge`. The boolean is `true` when the call
completed normally and `false` when it raised `ValueError`; the state is
the object's state afterwards in either case. The retry at lines 228-230
runs `make_inferences` and `check_obvious` a second time when
`len(self.safes) == 0`. -/
def add_knowledge (s : AI) (cell : Cell) (count : ℤ) : AI × Bool :=
  match s.add_knowledge_core cell count with
  | some s5 =>
      (if s5.safes = ∅ then s5.make_inferences.check_obvious else s5, true)
  | none => (s.add_knowledge_partial cell, false)

/-- The candidate list built by `MinesweeperAI.make_random_move`:
unclicked cells that are not known mines. -/
def random_move_options (s : AI) : List Cell :=
  s.unclicked.filter fun x => x ∉ s.mines

/-- `MinesweeperAI.make_random_move`: `random.choice` over the candidate
list when it is non-empty, else `None`. The random draw is modelled by the
index `r`, reduced mod the list length. The method reads `unclicked` and
`mines` and writes nothing. -/
def make_random_move (s : AI) (r : ℕ) : Option Cell :=
  let options := s.random_move_options
  if h : options ≠ [] then
    some (options.get ⟨r % options.length, Nat.mod_lt r (List.length_pos.mpr h)⟩)
  else none

/-- The candidate list built by `MinesweeperAI.make_safe_move`:
`self.safes - self.moves_made` as a list. -/
def safe_move_options (s : AI) : Finset Cell :=
  s.safes \ s.moves_made

/-- `MinesweeperAI.make_safe_move`: `random.choice` over
`safes - moves_made` when non-empty, else `None`. -/
def make_safe_move (s : AI) (r : ℕ) : Option Cell :=
  let options := cellList s.safe_move_options
  if h : options ≠ [] then
    some (options.get ⟨r % options.length, Nat.mod_lt r (List.length_pos.mpr h)⟩)
  else none

end AI

/-- The public engine operations that mutate state (move queries are pure
and do not appear: they return a value and leave the state unchanged). -/
inductive Op where
  | observe (cell : Cell) (count : ℤ)
  | markMine (cell : Cell)
  | markSafe (cell : Cell)
  deriving Repr

/-- Effect of one public operation on the engine state. A failed `observe`
leaves the partially mutated object, exactly as the Python exception does. -/
def runOp (s : AI) : Op → AI
  | .observe cell count => (s.add_knowledge cell count).1
  | .markMine cell => s.mark_mine cell
  | .markSafe cell => s.mark_safe cell

/-- Engine state after a sequence of public operations from a fresh engine. -/
def runOps (height width : ℕ) (ops : List Op) : AI :=
  ops.foldl runOp (AI.init height width)

/-- A state is reachable when some operation sequence from some fresh
engine produces it. -/
def Reachable (s : AI) : Prop :=
  ∃ height width ops, runOps height width ops = s


/-! ### Derived definitions used by the lemmas and the claims -/

namespace AI

/-- One step of the append loop at lines 280-283. -/
def dedupAppend (k : List Sentence) (ns : Sentence) : List Sentence :=
  if ns ∈ k then k else k ++ [ns]

/-- The list of inferred sentences built by the nested loops of
`make_inferences` (lines 272-277). -/
def inferred (s : AI) : List Sentence :=
  s.knowledge.flatMap fun s1 =>
    s.knowledge.filterMap fun s2 =>
      if s1.cells ⊂ s2.cells then
        some { cells := s2.cells \ s1.cells, count := s2.count - s1.count }
      else none

/-- The flat list of safe cells collected by `check_obvious` (lines 248-250):
cells of non-empty sentences whose `known_safes()` is not `None`. -/
def collectedSafes (s : AI) : List Cell :=
  (s.knowledge.filter fun se => se.cells ≠ ∅ ∧ se.count = 0).flatMap
    fun se => cellList se.cells

/-- The flat list of mine cells collected by `check_obvious` (lines 252-254):
cells of non-empty sentences whose `known_mines()` is not `None`. -/
def collectedMines (s : AI) : List Cell :=
  (s.knowledge.filter fun se =>
      se.cells ≠ ∅ ∧ se.count = (se.cells.card : ℤ)).flatMap
    fun se => cellList se.cells

/-- The state invariant maintained across all public operations:
`unclicked` has no duplicates, every clicked cell has left `unclicked`,
and no clicked cell remains in any sentence of `knowledge`. -/
def Inv (s : AI) : Prop :=
  s.unclicked.Nodup ∧
  (∀ c ∈ s.moves_made, c ∉ s.unclicked) ∧
  (∀ se ∈ s.knowledge, ∀ c ∈ se.cells, c ∉ s.moves_made)

/-- The state after the statements of `add_knowledge` up to the sentence
append (lines 206-222), on the non-raising path. -/
def afterAppend (s : AI) (cell : Cell) (count : ℤ) : AI :=
  let s1 : AI := { s with moves_made := insert cell s.moves_made }
  let s2 : AI := s1.mark_safe cell
  let s3 : AI := { s2 with unclicked := s2.unclicked.erase cell }
  { s3 with
    knowledge := s3.knowledge ++
      [{ cells := (unclicked_neighbors s3.width s3.height s3.moves_made cell).toFinset,
         count := count }] }

end AI

def KShrink (ks ks' : List Sentence) : Prop :=
  ∀ se' ∈ ks', ∃ se ∈ ks, se'.cells ⊆ se.cells

/-- Modelled from the spec: the neighborhood §4.2 step 3 prescribes — all
in-bounds cells within one row/column step of the observed cell, the cell
itself excluded, restricted to cells not in `moves_made`.  Written from the
claim's words for comparison with the code's `unclicked_neighbors`. -/
def spec_neighborhood (height width : ℕ) (moves_made : Finset Cell)
    (cell : Cell) : Finset Cell :=
  ((Finset.Icc (cell.1 - 1) (cell.1 + 1)) ×ˢ
      (Finset.Icc (cell.2 - 1) (cell.2 + 1))).filter fun p =>
    0 ≤ p.1 ∧ p.1 < (height : ℤ) ∧ 0 ≤ p.2 ∧ p.2 < (width : ℤ) ∧
      p ≠ cell ∧ p ∉ moves_made

/-- 2×2 engine after `mark_mine((0,1))` then `add_knowledge((0,0), 1)`. -/
def exC1 : AI := runOps 2 2 [Op.markMine (0, 1), Op.observe (0, 0) 1]

/-- 2×2 engine after `add_knowledge((0,0), 1)`, `mark_mine((0,1))`,
`mark_mine((1,0))`. -/
def exC2 : AI :=
  runOps 2 2 [Op.observe (0, 0) 1, Op.markMine (0, 1), Op.markMine (1, 0)]

/-- Engine whose knowledge holds the two overlapping constraints of the
spec's Scenario 2. -/
def exC3 : AI :=
  { AI.init 3 3 with
    knowledge :=
      [{ cells := {((0:ℤ), (0:ℤ)), ((0:ℤ), (1:ℤ))}, count := 1 },
       { cells := {((0:ℤ), (0:ℤ)), ((0:ℤ), (1:ℤ)), ((0:ℤ), (2:ℤ))}, count := 1 }] }

/-- The state the first pass of `add_knowledge((0,0), 1)` on a fresh 2×2
engine reaches, just before the retry check at line 228. -/
def exC5 : AI :=
  (((AI.init 2 2).add_knowledge_core ((0:ℤ), (0:ℤ)) 1).getD (AI.init 2 2))

/-- Engine whose knowledge holds the all-mine constraint of the spec's
Scenario 3. -/
def exC6 : AI :=
  { AI.init 3 3 with knowledge := [{ cells := {((1:ℤ), (1:ℤ))}, count := 1 }] }

/-- 2×2 engine after `mark_mine((0,0))` then `mark_safe((0,0))`. -/
def exC7 : AI := runOps 2 2 [Op.markMine (0, 0), Op.markSafe (0, 0)]

/-- 2×2 engine after one successful `add_knowledge((0,0), 1)`. -/
def exObserve : AI := runOps 2 2 [Op.observe (0, 0) 1]

/-! ### Lemmas -/

theorem mem_msCellList {x : Cell} {m : Multiset Cell} :
    x ∈ msCellList m ↔ x ∈ m :=
  Quotient.inductionOn m fun l => by
    simp [msCellList, (List.perm_insertionSort cellLe l).mem_iff]

theorem mem_cellList {x : Cell} {c : Finset Cell} :
    x ∈ cellList c ↔ x ∈ c := mem_msCellList


/-! ### Basic lemmas about the embedded operations -/

namespace Sentence

theorem mark_mine_cells_subset (se : Sentence) (c : Cell) :
    (se.mark_mine c).cells ⊆ se.cells := by
  unfold mark_mine
  split
  · exact Finset.erase_subset _ _
  · exact Finset.Subset.refl _

theorem mark_safe_cells_subset (se : Sentence) (c : Cell) :
    (se.mark_safe c).cells ⊆ se.cells := by
  unfold mark_safe
  split
  · exact Finset.erase_subset _ _
  · exact Finset.Subset.refl _

theorem not_mem_mark_safe (se : Sentence) (c : Cell) :
    c ∉ (se.mark_safe c).cells := by
  unfold mark_safe
  split
  · exact Finset.not_mem_erase _ _
  · assumption

theorem not_mem_mark_mine (se : Sentence) (c : Cell) :
    c ∉ (se.mark_mine c).cells := by
  unfold mark_mine
  split
  · exact Finset.not_mem_erase _ _
  · assumption

end Sentence

namespace AI

theorem mark_mine_mines (s : AI) (c : Cell) :
    (s.mark_mine c).mines = insert c s.mines := rfl

theorem mark_mine_safes (s : AI) (c : Cell) : (s.mark_mine c).safes = s.safes := rfl

theorem mark_mine_moves (s : AI) (c : Cell) :
    (s.mark_mine c).moves_made = s.moves_made := rfl

theorem mark_mine_unclicked (s : AI) (c : Cell) :
    (s.mark_mine c).unclicked = s.unclicked := rfl

theorem mark_mine_knowledge (s : AI) (c : Cell) :
    (s.mark_mine c).knowledge = s.knowledge.map (fun se => se.mark_mine c) := rfl

theorem mark_safe_safes (s : AI) (c : Cell) :
    (s.mark_safe c).safes = insert c s.safes := rfl

theorem mark_safe_mines (s : AI) (c : Cell) : (s.mark_safe c).mines = s.mines := rfl

theorem mark_safe_moves (s : AI) (c : Cell) :
    (s.mark_safe c).moves_made = s.moves_made := rfl

theorem mark_safe_unclicked (s : AI) (c : Cell) :
    (s.mark_safe c).unclicked = s.unclicked := rfl

theorem mark_safe_knowledge (s : AI) (c : Cell) :
    (s.mark_safe c).knowledge = s.knowledge.map (fun se => se.mark_safe c) := rfl

theorem foldl_mark_safe_moves (l : List Cell) (s : AI) :
    (l.foldl mark_safe s).moves_made = s.moves_made := by
  induction l generalizing s with
  | nil => rfl
  | cons c l ih => simpa using ih (s.mark_safe c)

theorem foldl_mark_safe_unclicked (l : List Cell) (s : AI) :
    (l.foldl mark_safe s).unclicked = s.unclicked := by
  induction l generalizing s with
  | nil => rfl
  | cons c l ih => simpa using ih (s.mark_safe c)

theorem foldl_mark_safe_mines (l : List Cell) (s : AI) :
    (l.foldl mark_safe s).mines = s.mines := by
  induction l generalizing s with
  | nil => rfl
  | cons c l ih => simpa using ih (s.mark_safe c)

theorem foldl_mark_safe_safes_subset (l : List Cell) (s : AI) :
    s.safes ⊆ (l.foldl mark_safe s).safes := by
  induction l generalizing s with
  | nil => exact Finset.Subset.refl _
  | cons c l ih =>
      intro x hx
      exact ih (s.mark_safe c) (Finset.mem_insert_of_mem hx)

theorem foldl_mark_mine_moves (l : List Cell) (s : AI) :
    (l.foldl mark_mine s).moves_made = s.moves_made := by
  induction l generalizing s with
  | nil => rfl
  | cons c l ih => simpa using ih (s.mark_mine c)

theorem foldl_mark_mine_unclicked (l : List Cell) (s : AI) :
    (l.foldl mark_mine s).unclicked = s.unclicked := by
  induction l generalizing s with
  | nil => rfl
  | cons c l ih => simpa using ih (s.mark_mine c)

theorem foldl_mark_mine_safes (l : List Cell) (s : AI) :
    (l.foldl mark_mine s).safes = s.safes := by
  induction l generalizing s with
  | nil => rfl
  | cons c l ih => simpa using ih (s.mark_mine c)

theorem foldl_mark_mine_mines_subset (l : List Cell) (s : AI) :
    s.mines ⊆ (l.foldl mark_mine s).mines := by
  induction l generalizing s with
  | nil => exact Finset.Subset.refl _
  | cons c l ih =>
      intro x hx
      exact ih (s.mark_mine c) (Finset.mem_insert_of_mem hx)

theorem mem_foldl_mark_mine_mines {l : List Cell} {c : Cell} (s : AI)
    (hc : c ∈ l) : c ∈ (l.foldl mark_mine s).mines := by
  induction l generalizing s with
  | nil => cases hc
  | cons d l ih =>
      rcases List.mem_cons.mp hc with rfl | h
      · exact foldl_mark_mine_mines_subset l (s.mark_mine c) (Finset.mem_insert_self _ _)
      · exact ih (s.mark_mine d) h

theorem mem_foldl_mark_safe_safes {l : List Cell} {c : Cell} (s : AI)
    (hc : c ∈ l) : c ∈ (l.foldl mark_safe s).safes := by
  induction l generalizing s with
  | nil => cases hc
  | cons d l ih =>
      rcases List.mem_cons.mp hc with rfl | h
      · exact foldl_mark_safe_safes_subset l (s.mark_safe c) (Finset.mem_insert_self _ _)
      · exact ih (s.mark_safe d) h

end AI

/-! ### Knowledge-shrink: every sentence of the second list has its cells
contained in the cells of some sentence of the first list.  All engine
operations other than the construction of the observation sentence only
shrink the cell sets in `knowledge`. -/

theorem kshrink_refl (ks : List Sentence) : KShrink ks ks :=
  fun se' h => ⟨se', h, Finset.Subset.refl _⟩

theorem kshrink_trans {k1 k2 k3 : List Sentence} (h12 : KShrink k1 k2)
    (h23 : KShrink k2 k3) : KShrink k1 k3 := by
  intro se' h'
  obtain ⟨se2, hse2, hsub2⟩ := h23 se' h'
  obtain ⟨se1, hse1, hsub1⟩ := h12 se2 hse2
  exact ⟨se1, hse1, hsub2.trans hsub1⟩

namespace AI

theorem kshrink_mark_mine (s : AI) (c : Cell) :
    KShrink s.knowledge (s.mark_mine c).knowledge := by
  intro se' h'
  rw [mark_mine_knowledge] at h'
  obtain ⟨se, hse, rfl⟩ := List.mem_map.mp h'
  exact ⟨se, hse, Sentence.mark_mine_cells_subset se c⟩

theorem kshrink_mark_safe (s : AI) (c : Cell) :
    KShrink s.knowledge (s.mark_safe c).knowledge := by
  intro se' h'
  rw [mark_safe_knowledge] at h'
  obtain ⟨se, hse, rfl⟩ := List.mem_map.mp h'
  exact ⟨se, hse, Sentence.mark_safe_cells_subset se c⟩

theorem kshrink_foldl_mark_safe (l : List Cell) (s : AI) :
    KShrink s.knowledge (l.foldl mark_safe s).knowledge := by
  induction l generalizing s with
  | nil => exact kshrink_refl _
  | cons c l ih =>
      exact kshrink_trans (kshrink_mark_safe s c) (ih (s.mark_safe c))

theorem kshrink_foldl_mark_mine (l : List Cell) (s : AI) :
    KShrink s.knowledge (l.foldl mark_mine s).knowledge := by
  induction l generalizing s with
  | nil => exact kshrink_refl _
  | cons c l ih =>
      exact kshrink_trans (kshrink_mark_mine s c) (ih (s.mark_mine c))

/-! ### The dedup-append fold of `make_inferences` -/

theorem mem_of_mem_init_foldl_dedupAppend {x : Sentence} (new k : List Sentence)
    (hx : x ∈ k) : x ∈ new.foldl dedupAppend k := by
  induction new generalizing k with
  | nil => exact hx
  | cons ns new ih =>
      refine ih (dedupAppend k ns) ?_
      unfold dedupAppend
      split
      · exact hx
      · exact List.mem_append_left _ hx

theorem mem_of_mem_new_foldl_dedupAppend {x : Sentence} (new k : List Sentence)
    (hx : x ∈ new) : x ∈ new.foldl dedupAppend k := by
  induction new generalizing k with
  | nil => cases hx
  | cons ns new ih =>
      rcases List.mem_cons.mp hx with rfl | h
      · refine mem_of_mem_init_foldl_dedupAppend new (dedupAppend k x) ?_
        unfold dedupAppend
        split
        · assumption
        · exact List.mem_append_right _ (List.mem_singleton_self x)
      · exact ih (dedupAppend k ns) h

theorem mem_foldl_dedupAppend_iff {x : Sentence} (new k : List Sentence) :
    x ∈ new.foldl dedupAppend k ↔ x ∈ k ∨ x ∈ new := by
  constructor
  · intro hx
    induction new generalizing k with
    | nil => exact Or.inl hx
    | cons ns new ih =>
        rcases ih (dedupAppend k ns) hx with h | h
        · unfold dedupAppend at h
          split at h
          · exact Or.inl h
          · rcases List.mem_append.mp h with h | h
            · exact Or.inl h
            · exact Or.inr (List.mem_cons.mpr (Or.inl (List.mem_singleton.mp h)))
        · exact Or.inr (List.mem_cons_of_mem _ h)
  · intro hx
    rcases hx with h | h
    · exact mem_of_mem_init_foldl_dedupAppend new k h
    · exact mem_of_mem_new_foldl_dedupAppend new k h

theorem make_inferences_knowledge (s : AI) :
    s.make_inferences.knowledge = (inferred s).foldl dedupAppend s.knowledge := rfl

theorem make_inferences_moves (s : AI) :
    s.make_inferences.moves_made = s.moves_made := rfl

theorem make_inferences_mines (s : AI) : s.make_inferences.mines = s.mines := rfl

theorem make_inferences_safes (s : AI) : s.make_inferences.safes = s.safes := rfl

theorem make_inferences_unclicked (s : AI) :
    s.make_inferences.unclicked = s.unclicked := rfl

theorem mem_inferred {s : AI} {s1 s2 : Sentence} (h1 : s1 ∈ s.knowledge)
    (h2 : s2 ∈ s.knowledge) (hsub : s1.cells ⊂ s2.cells) :
    ({ cells := s2.cells \ s1.cells, count := s2.count - s1.count } : Sentence)
      ∈ inferred s := by
  unfold inferred
  refine List.mem_flatMap.mpr ⟨s1, h1, ?_⟩
  refine List.mem_filterMap.mpr ⟨s2, h2, ?_⟩
  rw [if_pos hsub]

theorem mem_make_inferences {s : AI} {s1 s2 : Sentence} (h1 : s1 ∈ s.knowledge)
    (h2 : s2 ∈ s.knowledge) (hsub : s1.cells ⊂ s2.cells) :
    ({ cells := s2.cells \ s1.cells, count := s2.count - s1.count } : Sentence)
      ∈ s.make_inferences.knowledge := by
  rw [make_inferences_knowledge]
  exact mem_of_mem_new_foldl_dedupAppend _ _ (mem_inferred h1 h2 hsub)

theorem inferred_cells_subset {s : AI} {se' : Sentence} (h : se' ∈ inferred s) :
    ∃ se ∈ s.knowledge, se'.cells ⊆ se.cells := by
  unfold inferred at h
  obtain ⟨s1, _, h2⟩ := List.mem_flatMap.mp h
  obtain ⟨s2, hs2, hif⟩ := List.mem_filterMap.mp h2
  by_cases hsub : s1.cells ⊂ s2.cells
  · rw [if_pos hsub] at hif
    obtain rfl := Option.some_injective _ hif
    exact ⟨s2, hs2, Finset.sdiff_subset⟩
  · rw [if_neg hsub] at hif
    cases hif

theorem kshrink_make_inferences (s : AI) :
    KShrink s.knowledge s.make_inferences.knowledge := by
  intro se' h'
  rw [make_inferences_knowledge] at h'
  rcases (mem_foldl_dedupAppend_iff _ _).mp h' with h | h
  · exact ⟨se', h, Finset.Subset.refl _⟩
  · exact inferred_cells_subset h

end AI

namespace AI

/-- `check_obvious` written with the collected lists named. -/
theorem check_obvious_eq (s : AI) :
    s.check_obvious =
      (collectedMines s).foldl mark_mine
        ((collectedSafes s).foldl mark_safe
          { s with knowledge := s.knowledge.filter fun se => se.cells ≠ ∅ }) := rfl

theorem check_obvious_moves (s : AI) :
    s.check_obvious.moves_made = s.moves_made := by
  rw [check_obvious_eq, foldl_mark_mine_moves, foldl_mark_safe_moves]

theorem check_obvious_unclicked (s : AI) :
    s.check_obvious.unclicked = s.unclicked := by
  rw [check_obvious_eq, foldl_mark_mine_unclicked, foldl_mark_safe_unclicked]

theorem check_obvious_safes_subset (s : AI) : s.safes ⊆ s.check_obvious.safes := by
  rw [check_obvious_eq]
  rw [foldl_mark_mine_safes]
  exact foldl_mark_safe_safes_subset (collectedSafes s)
    { s with knowledge := s.knowledge.filter fun se => se.cells ≠ ∅ }

theorem check_obvious_mines_subset (s : AI) : s.mines ⊆ s.check_obvious.mines := by
  rw [check_obvious_eq]
  refine Finset.Subset.trans ?_ (foldl_mark_mine_mines_subset _ _)
  rw [foldl_mark_safe_mines]

theorem kshrink_check_obvious (s : AI) :
    KShrink s.knowledge s.check_obvious.knowledge := by
  rw [check_obvious_eq]
  have hfil : KShrink s.knowledge
      (s.knowledge.filter fun se => se.cells ≠ ∅) := by
    intro se' h'
    exact ⟨se', List.mem_of_mem_filter h', Finset.Subset.refl _⟩
  exact kshrink_trans hfil
    (kshrink_trans (kshrink_foldl_mark_safe _ _) (kshrink_foldl_mark_mine _ _))

/-- Any cell of any all-mine non-empty sentence is in `mines` after one
resolution sweep. -/
theorem check_obvious_mem_mines {s : AI} {se : Sentence} {c : Cell}
    (hse : se ∈ s.knowledge) (hne : se.cells ≠ ∅)
    (hcount : se.count = (se.cells.card : ℤ)) (hc : c ∈ se.cells) :
    c ∈ s.check_obvious.mines := by
  rw [check_obvious_eq]
  refine mem_foldl_mark_mine_mines _ ?_
  unfold collectedMines
  refine List.mem_flatMap.mpr ⟨se, ?_, ?_⟩
  · refine List.mem_filter.mpr ⟨hse, ?_⟩
    exact decide_eq_true (by exact ⟨hne, hcount⟩)
  · exact mem_cellList.mpr hc

/-- Any cell of any all-safe non-empty sentence is in `safes` after one
resolution sweep. -/
theorem check_obvious_mem_safes {s : AI} {se : Sentence} {c : Cell}
    (hse : se ∈ s.knowledge) (hne : se.cells ≠ ∅)
    (hcount : se.count = 0) (hc : c ∈ se.cells) :
    c ∈ s.check_obvious.safes := by
  rw [check_obvious_eq]
  have h1 : c ∈ ((collectedSafes s).foldl mark_safe
      { s with knowledge := s.knowledge.filter fun se => se.cells ≠ ∅ }).safes := by
    refine mem_foldl_mark_safe_safes _ ?_
    unfold collectedSafes
    refine List.mem_flatMap.mpr ⟨se, ?_, ?_⟩
    · refine List.mem_filter.mpr ⟨hse, ?_⟩
      exact decide_eq_true (by exact ⟨hne, hcount⟩)
    · exact mem_cellList.mpr hc
  have h2 := foldl_mark_mine_safes (collectedMines s)
    ((collectedSafes s).foldl mark_safe
      { s with knowledge := s.knowledge.filter fun se => se.cells ≠ ∅ })
  rw [h2]
  exact h1

end AI

namespace AI

/-- Cells produced by the neighbor comprehension are never in the
`moves_made` set it filters against. -/
theorem mem_unclicked_neighbors_not_moves {w h : ℕ} {mm : Finset Cell}
    {cell c : Cell} (hc : c ∈ unclicked_neighbors w h mm cell) : c ∉ mm := by
  unfold unclicked_neighbors at hc
  obtain ⟨i, _, hj⟩ := List.mem_flatMap.mp hc
  obtain ⟨j, _, hif⟩ := List.mem_filterMap.mp hj
  by_cases hmem : (i, j) ∈ mm
  · rw [if_pos hmem] at hif
    cases hif
  · rw [if_neg hmem] at hif
    obtain rfl := Option.some_injective _ hif
    exact hmem

theorem inv_init (h w : ℕ) : Inv (init h w) := by
  refine ⟨?_, ?_, ?_⟩
  · show ((List.range h).flatMap fun i : ℕ =>
      (List.range w).map fun j : ℕ => (((i : ℤ), (j : ℤ)) : Cell)).Nodup
    refine List.nodup_flatMap.mpr ⟨?_, ?_⟩
    · intro i _
      refine List.Nodup.map (f := fun j : ℕ => ((i : ℤ), (j : ℤ))) ?_ (List.nodup_range w)
      intro a b hab
      have h2 : (a : ℤ) = (b : ℤ) := congrArg Prod.snd hab
      exact_mod_cast h2
    · refine (List.nodup_range h).pairwise_of_forall_ne ?_
      intro i hi j hj hij
      simp only [Function.onFun, List.disjoint_left, List.mem_map]
      rintro x ⟨a, _, rfl⟩ ⟨b, _, hx⟩
      refine hij ?_
      have h1 : (j : ℤ) = (i : ℤ) := congrArg Prod.fst hx
      exact_mod_cast h1.symm
  · intro c hc
    cases hc
  · intro se hse
    cases hse

theorem inv_mark_mine {s : AI} (h : Inv s) (c : Cell) : Inv (s.mark_mine c) := by
  obtain ⟨h1, h2, h3⟩ := h
  refine ⟨h1, h2, ?_⟩
  intro se' hse' x hx
  obtain ⟨se, hse, hsub⟩ := kshrink_mark_mine s c se' hse'
  exact h3 se hse x (hsub hx)

theorem inv_mark_safe {s : AI} (h : Inv s) (c : Cell) : Inv (s.mark_safe c) := by
  obtain ⟨h1, h2, h3⟩ := h
  refine ⟨h1, h2, ?_⟩
  intro se' hse' x hx
  obtain ⟨se, hse, hsub⟩ := kshrink_mark_safe s c se' hse'
  exact h3 se hse x (hsub hx)

theorem inv_make_inferences {s : AI} (h : Inv s) : Inv s.make_inferences := by
  obtain ⟨h1, h2, h3⟩ := h
  refine ⟨?_, ?_, ?_⟩
  · rw [make_inferences_unclicked]; exact h1
  · rw [make_inferences_unclicked, make_inferences_moves]; exact h2
  · rw [make_inferences_moves]
    intro se' hse' x hx
    obtain ⟨se, hse, hsub⟩ := kshrink_make_inferences s se' hse'
    exact h3 se hse x (hsub hx)

theorem inv_check_obvious {s : AI} (h : Inv s) : Inv s.check_obvious := by
  obtain ⟨h1, h2, h3⟩ := h
  refine ⟨?_, ?_, ?_⟩
  · rw [check_obvious_unclicked]; exact h1
  · rw [check_obvious_unclicked, check_obvious_moves]; exact h2
  · rw [check_obvious_moves]
    intro se' hse' x hx
    obtain ⟨se, hse, hsub⟩ := kshrink_check_obvious s se' hse'
    exact h3 se hse x (hsub hx)

theorem add_knowledge_core_eq (s : AI) (cell : Cell) (count : ℤ) :
    s.add_knowledge_core cell count =
      if cell ∈ s.unclicked then
        some (afterAppend s cell count).make_inferences.check_obvious
      else none := rfl

theorem inv_afterAppend {s : AI} (h : Inv s) (cell : Cell) (count : ℤ)
    (hcell : cell ∈ s.unclicked) : Inv (afterAppend s cell count) := by
  obtain ⟨h1, h2, h3⟩ := h
  refine ⟨?_, ?_, ?_⟩
  · exact h1.erase cell
  · intro c hc
    show c ∉ s.unclicked.erase cell
    rcases Finset.mem_insert.mp hc with rfl | hc
    · intro habs
      exact ((h1.mem_erase_iff).mp habs).1 rfl
    · intro habs
      exact h2 c hc (List.erase_subset _ _ habs)
  · intro se' hse' c hc
    show c ∉ insert cell s.moves_made
    rcases List.mem_append.mp hse' with hold | hnew
    · obtain ⟨se, hse, rfl⟩ := List.mem_map.mp hold
      intro habs
      rcases Finset.mem_insert.mp habs with rfl | hmem
      · exact Sentence.not_mem_mark_safe se c hc
      · exact h3 se hse c (Sentence.mark_safe_cells_subset se cell hc) hmem
    · obtain rfl := List.mem_singleton.mp hnew
      exact mem_unclicked_neighbors_not_moves (List.mem_toFinset.mp hc)

theorem inv_add_knowledge_partial {s : AI} (h : Inv s) (cell : Cell)
    (hcell : cell ∉ s.unclicked) : Inv (s.add_knowledge_partial cell) := by
  obtain ⟨h1, h2, h3⟩ := h
  refine ⟨h1, ?_, ?_⟩
  · intro c hc
    show c ∉ s.unclicked
    rcases Finset.mem_insert.mp hc with rfl | hc
    · exact hcell
    · exact h2 c hc
  · intro se' hse' c hc
    show c ∉ insert cell s.moves_made
    obtain ⟨se, hse, rfl⟩ := List.mem_map.mp hse'
    intro habs
    rcases Finset.mem_insert.mp habs with rfl | hmem
    · exact Sentence.not_mem_mark_safe se c hc
    · exact h3 se hse c (Sentence.mark_safe_cells_subset se cell hc) hmem

theorem inv_add_knowledge {s : AI} (h : Inv s) (cell : Cell) (count : ℤ) :
    Inv (s.add_knowledge cell count).1 := by
  unfold add_knowledge
  rw [add_knowledge_core_eq]
  by_cases hcell : cell ∈ s.unclicked
  · rw [if_pos hcell]
    have h5 : Inv (afterAppend s cell count).make_inferences.check_obvious :=
      inv_check_obvious (inv_make_inferences (inv_afterAppend h cell count hcell))
    dsimp only
    split
    · exact inv_check_obvious (inv_make_inferences h5)
    · exact h5
  · rw [if_neg hcell]
    exact inv_add_knowledge_partial h cell hcell

theorem inv_runOp {s : AI} (h : Inv s) (op : Op) : Inv (runOp s op) := by
  cases op with
  | observe cell count => exact inv_add_knowledge h cell count
  | markMine cell => exact inv_mark_mine h cell
  | markSafe cell => exact inv_mark_safe h cell

theorem reachable_inv {s : AI} (h : Reachable s) : Inv s := by
  obtain ⟨height, width, ops, rfl⟩ := h
  unfold runOps
  induction ops using List.reverseRecOn with
  | nil => exact inv_init height width
  | append_singleton ops op ih =>
      rw [List.foldl_append]
      exact inv_runOp ih op

end AI

namespace AI

theorem afterAppend_safes (s : AI) (cell : Cell) (count : ℤ) :
    (afterAppend s cell count).safes = insert cell s.safes := rfl

/-- The observed cell is in `safes` of the state the first
propagation-and-resolution pass produces: `mark_safe` put it there and
nothing later removes it. -/
theorem add_knowledge_core_mem_safes {s : AI} {cell : Cell} {count : ℤ}
    {s5 : AI} (h : s.add_knowledge_core cell count = some s5) :
    cell ∈ s5.safes := by
  rw [add_knowledge_core_eq] at h
  by_cases hcell : cell ∈ s.unclicked
  · rw [if_pos hcell] at h
    obtain rfl := Option.some_injective _ h
    refine check_obvious_safes_subset _ ?_
    rw [make_inferences_safes, afterAppend_safes]
    exact Finset.mem_insert_self _ _
  · rw [if_neg hcell] at h
    cases h

/-- When the first pass succeeds, the retry branch is never taken:
`add_knowledge` returns the first-pass state unchanged, because `safes`
holds at least the observed cell, so `len(self.safes) == 0` is false. -/
theorem add_knowledge_of_core_some {s : AI} {cell : Cell} {count : ℤ}
    {s5 : AI} (h : s.add_knowledge_core cell count = some s5) :
    s.add_knowledge cell count = (s5, true) := by
  have hne : s5.safes ≠ ∅ :=
    Finset.ne_empty_of_mem (add_knowledge_core_mem_safes h)
  unfold add_knowledge
  rw [h]
  dsimp only
  rw [if_neg hne]

/-- A raising `observe` is exactly one whose cell is no longer in
`unclicked`. -/
theorem add_knowledge_snd_false {s : AI} {cell : Cell} (count : ℤ)
    (h : cell ∉ s.unclicked) : (s.add_knowledge cell count).2 = false := by
  unfold add_knowledge
  rw [add_knowledge_core_eq, if_neg h]

end AI

/-! ### Concrete states used by the claim theorems -/

/-! ### The claims -/

/-- **C1, counterexample.**  The claim says no cell of any live constraint
is also in `mines`, `safes` or `moves_made`, and in particular that the
constraint built by `observe` contains no confirmed mine.  False: on a 2×2
engine, after the public operations `mark_mine((0,1))` then
`add_knowledge((0,0), 1)`, the cell `(0,1)` is in `mines` and also in the
cells of a live constraint — the neighbor comprehension at lines 217-220
excludes only `moves_made`, never `mines` or `safes`. -/
theorem claim_C1_counterexample :
    ((0:ℤ), (1:ℤ)) ∈ exC1.mines ∧
      ∃ se ∈ exC1.knowledge, ((0:ℤ), (1:ℤ)) ∈ se.cells := by decide

/-- **C1, amended.**  The purge invariant holds for `moves_made` only: in
every reachable state, no cell of any live constraint is in `moves_made`,
and the neighbor comprehension excludes every cell of `moves_made` by
construction.  (Cells of `mines` or `safes` can occur in live constraints,
as the counterexample shows.) -/
theorem claim_C1_theorem :
    (∀ s : AI, Reachable s → ∀ se ∈ s.knowledge, ∀ c ∈ se.cells,
      c ∉ s.moves_made) ∧
    (∀ (w h : ℕ) (mm : Finset Cell) (cell c : Cell),
      c ∈ AI.unclicked_neighbors w h mm cell → c ∉ mm) := by
  constructor
  · intro s hs se hse c hc
    exact (AI.reachable_inv hs).2.2 se hse c hc
  · intro w h mm cell c hc
    exact AI.mem_unclicked_neighbors_not_moves hc

/-- **C1, witness.**  The amended invariant instantiated on the 2×2 engine
after one observation: the constraint cell `(0,1)` is not in `moves_made`. -/
theorem claim_C1_witness : ((0:ℤ), (1:ℤ)) ∉ exObserve.moves_made :=
  claim_C1_theorem.1 exObserve ⟨2, 2, [Op.observe (0, 0) 1], rfl⟩
    { cells := {((0:ℤ), (1:ℤ)), ((1:ℤ), (0:ℤ)), ((1:ℤ), (1:ℤ))}, count := 1 }
    (by decide) ((0:ℤ), (1:ℤ)) (by decide)

/-- **C2, counterexample.**  The claim says every live constraint satisfies
`0 ≤ count ≤ |cells|` after any `mark_mine`/`mark_safe`.  False: on a 2×2
engine, `add_knowledge((0,0), 1)` then the public `mark_mine((0,1))` and
`mark_mine((1,0))` leave the live constraint `({(1,1)}, -1)` — `mark_mine`
decrements the count unconditionally (line 128). -/
theorem claim_C2_counterexample : ∃ se ∈ exC2.knowledge, se.count < 0 := by
  decide

/-- **C2, amended.**  The count invariant is conditional: a constraint
satisfying it keeps it under `mark_mine` exactly when the marked cell's
presence implies `count ≥ 1`, and under `mark_safe` exactly when the
marked cell's presence implies `count < |cells|` — both directions:
when the side condition fails the updated constraint violates the
invariant.  The engine does not enforce these side conditions (see the
counterexample). -/
theorem claim_C2_theorem (se : Sentence) (c : Cell)
    (h0 : 0 ≤ se.count) (h1 : se.count ≤ (se.cells.card : ℤ)) :
    ((0 ≤ (se.mark_mine c).count ∧
        (se.mark_mine c).count ≤ ((se.mark_mine c).cells.card : ℤ)) ↔
      (c ∈ se.cells → 1 ≤ se.count)) ∧
    ((0 ≤ (se.mark_safe c).count ∧
        (se.mark_safe c).count ≤ ((se.mark_safe c).cells.card : ℤ)) ↔
      (c ∈ se.cells → se.count + 1 ≤ (se.cells.card : ℤ))) := by
  constructor
  · unfold Sentence.mark_mine
    by_cases hmem : c ∈ se.cells
    · rw [if_pos hmem]
      have hcard := Finset.card_erase_of_mem hmem
      have hpos : 0 < se.cells.card := Finset.card_pos.mpr ⟨c, hmem⟩
      dsimp only
      rw [hcard]
      constructor
      · rintro ⟨ha, hb⟩ _
        omega
      · intro hside
        have hge := hside hmem
        omega
    · rw [if_neg hmem]
      exact iff_of_true ⟨h0, h1⟩ fun hmem2 => absurd hmem2 hmem
  · unfold Sentence.mark_safe
    by_cases hmem : c ∈ se.cells
    · rw [if_pos hmem]
      have hcard := Finset.card_erase_of_mem hmem
      have hpos : 0 < se.cells.card := Finset.card_pos.mpr ⟨c, hmem⟩
      dsimp only
      rw [hcard]
      constructor
      · rintro ⟨ha, hb⟩ _
        omega
      · intro hside
        have hlt := hside hmem
        omega
    · rw [if_neg hmem]
      exact iff_of_true ⟨h0, h1⟩ fun hmem2 => absurd hmem2 hmem

/-- **C2, witness.**  The `mark_mine` biconditional applied to the
constraint `({(0,0),(0,1)}, 1)` and the cell `(0,0)`: the side condition
holds there, so the updated constraint satisfies the invariant. -/
theorem claim_C2_witness :
    0 ≤ (Sentence.mark_mine
          { cells := {((0:ℤ), (0:ℤ)), ((0:ℤ), (1:ℤ))}, count := 1 }
          ((0:ℤ), (0:ℤ))).count ∧
    (Sentence.mark_mine
        { cells := {((0:ℤ), (0:ℤ)), ((0:ℤ), (1:ℤ))}, count := 1 }
        ((0:ℤ), (0:ℤ))).count ≤
      (((Sentence.mark_mine
          { cells := {((0:ℤ), (0:ℤ)), ((0:ℤ), (1:ℤ))}, count := 1 }
          ((0:ℤ), (0:ℤ))).cells.card : ℕ) : ℤ) :=
  (claim_C2_theorem
      { cells := {((0:ℤ), (0:ℤ)), ((0:ℤ), (1:ℤ))}, count := 1 }
      ((0:ℤ), (0:ℤ)) (by decide) (by decide)).1.mpr (by decide)

/-- **C3.**  Subset propagation, as claimed: for every ordered pair of live
constraints with `A.cells` a strict subset of `B.cells`, one
`make_inferences` pass leaves a constraint equal to
`(B.cells − A.cells, B.count − A.count)` in `knowledge` (it is appended
unless an equal one is already present — either way it is present
afterwards); and on the spec's Scenario 2 the constraint `({(0,2)}, 0)` is
derived and `(0,2)` is marked safe by the following resolution sweep. -/
theorem claim_C3_theorem :
    (∀ s : AI, ∀ s1 ∈ s.knowledge, ∀ s2 ∈ s.knowledge, s1.cells ⊂ s2.cells →
      ({ cells := s2.cells \ s1.cells, count := s2.count - s1.count } : Sentence)
        ∈ s.make_inferences.knowledge) ∧
    (({ cells := {((0:ℤ), (2:ℤ))}, count := 0 } : Sentence)
        ∈ exC3.make_inferences.knowledge ∧
      ((0:ℤ), (2:ℤ)) ∈ exC3.make_inferences.check_obvious.safes) := by
  refine ⟨?_, by decide, by decide⟩
  intro s s1 h1 s2 h2 hsub
  exact AI.mem_make_inferences h1 h2 hsub

/-- **C3, witness.**  The general propagation statement instantiated on
Scenario 2's pair of constraints. -/
theorem claim_C3_witness :
    ({ cells := {((0:ℤ), (0:ℤ)), ((0:ℤ), (1:ℤ)), ((0:ℤ), (2:ℤ))} \
          {((0:ℤ), (0:ℤ)), ((0:ℤ), (1:ℤ))},
       count := 1 - 1 } : Sentence) ∈ exC3.make_inferences.knowledge :=
  claim_C3_theorem.1 exC3
    { cells := {((0:ℤ), (0:ℤ)), ((0:ℤ), (1:ℤ))}, count := 1 } (by decide)
    { cells := {((0:ℤ), (0:ℤ)), ((0:ℤ), (1:ℤ)), ((0:ℤ), (2:ℤ))}, count := 1 }
    (by decide) (by decide)

/-- **C4.**  Evaluation of the code at the failing input of the
neighborhood bug.  On a grid of height 1 and width 3, observing the cell
`(0,1)` (so `moves_made = {(0,1)}`): the code's comprehension (which clamps
the row range by `self.width` and the column range by `self.height`,
lines 211-214) produces `[(0,0), (1,0)]`, while the claim's neighborhood
(rows below the height, columns below the width) is `{(0,0), (0,2)}`; the
two differ, and after the full `add_knowledge((0,1), 0)` the out-of-grid
cell `(1,0)` has been marked safe while the true neighbor `(0,2)` has
not.  The sibling `Minesweeper.nearby_mines` (line 74) bounds rows by
`height` and columns by `width`, so the swap is a slip. -/
theorem claim_C4_theorem :
    AI.unclicked_neighbors 3 1 {((0:ℤ), (1:ℤ))} ((0:ℤ), (1:ℤ)) =
        [((0:ℤ), (0:ℤ)), ((1:ℤ), (0:ℤ))] ∧
    spec_neighborhood 1 3 {((0:ℤ), (1:ℤ))} ((0:ℤ), (1:ℤ)) =
        {((0:ℤ), (0:ℤ)), ((0:ℤ), (2:ℤ))} ∧
    (AI.unclicked_neighbors 3 1 {((0:ℤ), (1:ℤ))} ((0:ℤ), (1:ℤ))).toFinset ≠
        spec_neighborhood 1 3 {((0:ℤ), (1:ℤ))} ((0:ℤ), (1:ℤ)) ∧
    ((1:ℤ), (0:ℤ)) ∈ (runOps 1 3 [Op.observe (0, 1) 0]).safes ∧
    ((0:ℤ), (2:ℤ)) ∉ (runOps 1 3 [Op.observe (0, 1) 0]).safes := by decide

/-- **C5.**  Evaluation of the code at the failing input of the retry bug.
General part: whenever the first pass of `add_knowledge` completes,
`safes` already holds the observed cell, so the retry condition
`len(self.safes) == 0` (line 228) is false and `add_knowledge` returns the
first-pass state — the retry can never run.  Concrete part: on a fresh 2×2
engine observing `(0,0)` with count 1, after the first pass no
confirmed-safe unmoved cell exists (`safes − moves_made = ∅`), which by
the claim should trigger the second pass, yet `safes = {(0,0)} ≠ ∅` so the
code skips it — contradicting the code's own comment at line 227. -/
theorem claim_C5_theorem :
    (∀ (s : AI) (cell : Cell) (count : ℤ) (s5 : AI),
      s.add_knowledge_core cell count = some s5 →
        s5.safes ≠ ∅ ∧ s.add_knowledge cell count = (s5, true)) ∧
    ((AI.init 2 2).add_knowledge_core ((0:ℤ), (0:ℤ)) 1 = some exC5 ∧
      exC5.safes \ exC5.moves_made = ∅ ∧ exC5.safes ≠ ∅) := by
  refine ⟨?_, by decide, by decide, by decide⟩
  intro s cell count s5 h
  exact ⟨Finset.ne_empty_of_mem (AI.add_knowledge_core_mem_safes h),
    AI.add_knowledge_of_core_some h⟩

/-- **C5, witness.**  The no-retry fact instantiated on the concrete first
pass: `add_knowledge` returns `exC5` itself, the retry branch untaken. -/
theorem claim_C5_witness :
    exC5.safes ≠ ∅ ∧
      (AI.init 2 2).add_knowledge ((0:ℤ), (0:ℤ)) 1 = (exC5, true) :=
  claim_C5_theorem.1 (AI.init 2 2) ((0:ℤ), (0:ℤ)) 1 exC5 (by decide)

/-- **C6, counterexample.**  The claim says that after one resolution sweep
the all-mine constraint is no longer in `knowledge`.  False: `check_obvious`
collects the empty sentences *before* marking (lines 242-258), so the
constraint `({(1,1)}, 1)` is emptied in place by the `mark_mine` calls but
still sits in `knowledge` (as `(∅, 0)`) when the sweep returns. -/
theorem claim_C6_counterexample :
    ((1:ℤ), (1:ℤ)) ∈ exC6.check_obvious.mines ∧
      exC6.check_obvious.knowledge = [{ cells := ∅, count := 0 }] := by decide

/-- **C6, amended.**  After one resolution sweep every cell of an all-mine
non-empty constraint is in `mines` and the constraint has been emptied in
place, but it is removed from `knowledge` only at the start of the *next*
sweep. -/
theorem claim_C6_theorem :
    (∀ s : AI, ∀ se ∈ s.knowledge, se.cells ≠ ∅ →
      se.count = (se.cells.card : ℤ) →
        ∀ c ∈ se.cells, c ∈ s.check_obvious.mines) ∧
    (exC6.check_obvious.knowledge = [{ cells := ∅, count := 0 }] ∧
      exC6.check_obvious.check_obvious.knowledge = []) := by
  refine ⟨?_, by decide, by decide⟩
  intro s se hse hne hcount c hc
  exact AI.check_obvious_mem_mines hse hne hcount hc

/-- **C6, witness.**  The general sweep statement instantiated on
Scenario 3's constraint `({(1,1)}, 1)`. -/
theorem claim_C6_witness : ((1:ℤ), (1:ℤ)) ∈ exC6.check_obvious.mines :=
  claim_C6_theorem.1 exC6 { cells := {((1:ℤ), (1:ℤ))}, count := 1 }
    (by decide) (by decide) (by decide) ((1:ℤ), (1:ℤ)) (by decide)

/-- **C7, counterexample.**  The claim says `mines` and `safes` stay
disjoint after every sequence of public operations.  False: the public
sequence `mark_mine((0,0))`, `mark_safe((0,0))` puts `(0,0)` into both —
neither marking method checks the other set (lines 171-187). -/
theorem claim_C7_counterexample :
    ((0:ℤ), (0:ℤ)) ∈ exC7.mines ∧ ((0:ℤ), (0:ℤ)) ∈ exC7.safes := by decide

/-- **C7, amended.**  Disjointness holds initially and is preserved by
`mark_mine` when the cell is not already in `safes` and by `mark_safe`
when the cell is not already in `mines`; the engine itself performs no
such check, so marking a cell both ways violates it (see the
counterexample). -/
theorem claim_C7_theorem :
    (∀ h w : ℕ, Disjoint (AI.init h w).mines (AI.init h w).safes) ∧
    (∀ (s : AI) (c : Cell), Disjoint s.mines s.safes → c ∉ s.safes →
      Disjoint (s.mark_mine c).mines (s.mark_mine c).safes) ∧
    (∀ (s : AI) (c : Cell), Disjoint s.mines s.safes → c ∉ s.mines →
      Disjoint (s.mark_safe c).mines (s.mark_safe c).safes) := by
  refine ⟨?_, ?_, ?_⟩
  · intro h w
    exact Finset.disjoint_empty_left _
  · intro s c hdis hc
    rw [AI.mark_mine_mines, AI.mark_mine_safes]
    exact Finset.disjoint_insert_left.mpr ⟨hc, hdis⟩
  · intro s c hdis hc
    rw [AI.mark_safe_mines, AI.mark_safe_safes]
    exact Finset.disjoint_insert_right.mpr ⟨hc, hdis⟩

/-- **C7, witness.**  Preservation instantiated: marking `(0,0)` as a mine
on a fresh 2×2 engine keeps `mines` and `safes` disjoint. -/
theorem claim_C7_witness :
    Disjoint ((AI.init 2 2).mark_mine ((0:ℤ), (0:ℤ))).mines
      ((AI.init 2 2).mark_mine ((0:ℤ), (0:ℤ))).safes :=
  claim_C7_theorem.2.1 (AI.init 2 2) ((0:ℤ), (0:ℤ)) (by decide) (by decide)

/-- **C8.**  `make_random_move` on any reachable state: it returns the
explicit no-move value exactly when every unclicked cell is a known mine
(`unclicked − mines` empty), and any returned cell is unclicked, not a
known mine, and not a move already made; the method mutates nothing (it is
a function of the state in this embedding, matching the source, which
only reads `unclicked` and `mines`). -/
theorem claim_C8_theorem (s : AI) (r : ℕ) (hs : Reachable s) :
    (s.make_random_move r = none ↔ ∀ x ∈ s.unclicked, x ∈ s.mines) ∧
    (∀ c : Cell, s.make_random_move r = some c →
      c ∈ s.unclicked ∧ c ∉ s.mines ∧ c ∉ s.moves_made) := by
  obtain ⟨-, hmv, -⟩ := AI.reachable_inv hs
  have hopts : ∀ c : Cell,
      c ∈ s.random_move_options ↔ c ∈ s.unclicked ∧ c ∉ s.mines := by
    intro c
    unfold AI.random_move_options
    simp [List.mem_filter]
  constructor
  · unfold AI.make_random_move
    by_cases h : s.random_move_options ≠ []
    · rw [dif_pos h]
      constructor
      · intro hx
        exact absurd hx (Option.some_ne_none _)
      · intro hall
        exfalso
        obtain ⟨c, hc⟩ := List.exists_mem_of_ne_nil _ h
        have hcu := (hopts c).mp hc
        exact hcu.2 (hall c hcu.1)
    · rw [dif_neg h]
      have hnil : s.random_move_options = [] := not_not.mp h
      refine iff_of_true rfl ?_
      intro x hx
      by_contra hxm
      have hmem : x ∈ s.random_move_options := (hopts x).mpr ⟨hx, hxm⟩
      rw [hnil] at hmem
      cases hmem
  · intro c hc
    unfold AI.make_random_move at hc
    by_cases h : s.random_move_options ≠ []
    · rw [dif_pos h] at hc
      obtain hceq := Option.some_injective _ hc
      have hcmem : c ∈ s.random_move_options := hceq ▸ List.get_mem _ _ _
      have hcu := (hopts c).mp hcmem
      exact ⟨hcu.1, hcu.2, fun hm => hmv c hm hcu.1⟩
    · rw [dif_neg h] at hc
      cases hc

/-- **C8, witness.**  On the fresh 1×1 engine (reachable with the empty
operation sequence) the returned cell `(0,0)` is unclicked, not a mine and
not a made move. -/
theorem claim_C8_witness :
    ((0:ℤ), (0:ℤ)) ∈ (AI.init 1 1).unclicked ∧
      ((0:ℤ), (0:ℤ)) ∉ (AI.init 1 1).mines ∧
      ((0:ℤ), (0:ℤ)) ∉ (AI.init 1 1).moves_made :=
  (claim_C8_theorem (AI.init 1 1) 0 ⟨1, 1, [], rfl⟩).2 ((0:ℤ), (0:ℤ))
    (by decide)

/-- **C9.**  Fail-fast on duplicate observation: in any reachable state, a
cell already in `moves_made` is no longer in `unclicked` (it was removed
when first observed), so `add_knowledge` raises `ValueError` at
`self.unclicked.remove(cell)` (line 208) and does not complete normally. -/
theorem claim_C9_theorem (s : AI) (cell : Cell) (count : ℤ)
    (hs : Reachable s) (h : cell ∈ s.moves_made) :
    (s.add_knowledge cell count).2 = false := by
  obtain ⟨-, hmv, -⟩ := AI.reachable_inv hs
  exact AI.add_knowledge_snd_false count (hmv cell h)

/-- **C9, witness.**  Observing `(0,0)` twice on a 2×2 engine: the second
call raises. -/
theorem claim_C9_witness :
    (exObserve.add_knowledge ((0:ℤ), (0:ℤ)) 1).2 = false :=
  claim_C9_theorem exObserve ((0:ℤ), (0:ℤ)) 1
    ⟨2, 2, [Op.observe (0, 0) 1], rfl⟩ (by decide)

/-- **C10.**  Totality of the marking operations at the public interface:
for every state and every cell value whatsoever — bounds never inspected —
`mark_mine` adds the cell to `mines` and maps `Sentence.mark_mine` over
`knowledge`, `mark_safe` adds it to `safes` and maps `Sentence.mark_safe`,
everything else unchanged; and on a sentence not containing the cell both
sentence updates are no-ops.  (Totality itself is witnessed by these being
total functions of arbitrary `ℤ × ℤ` cells, exactly like the source,
which performs no validation and can raise nothing.) -/
theorem claim_C10_theorem (s : AI) (c : Cell) :
    ((s.mark_mine c).mines = insert c s.mines ∧
      (s.mark_mine c).safes = s.safes ∧
      (s.mark_mine c).moves_made = s.moves_made ∧
      (s.mark_mine c).unclicked = s.unclicked ∧
      (s.mark_mine c).knowledge = s.knowledge.map (fun se => se.mark_mine c)) ∧
    ((s.mark_safe c).safes = insert c s.safes ∧
      (s.mark_safe c).mines = s.mines ∧
      (s.mark_safe c).moves_made = s.moves_made ∧
      (s.mark_safe c).unclicked = s.unclicked ∧
      (s.mark_safe c).knowledge = s.knowledge.map (fun se => se.mark_safe c)) ∧
    (∀ se : Sentence, c ∉ se.cells →
      se.mark_mine c = se ∧ se.mark_safe c = se) := by
  refine ⟨⟨rfl, rfl, rfl, rfl, rfl⟩, ⟨rfl, rfl, rfl, rfl, rfl⟩, ?_⟩
  intro se hse
  constructor
  · unfold Sentence.mark_mine
    rw [if_neg hse]
  · unfold Sentence.mark_safe
    rw [if_neg hse]

/-- **C10, witness.**  Marking the far out-of-bounds cell `(-5, 100)` on a
2×2 engine: `mines` gains the cell, and a sentence not containing it is
untouched. -/
theorem claim_C10_witness :
    ((AI.init 2 2).mark_mine ((-5:ℤ), (100:ℤ))).mines =
        insert ((-5:ℤ), (100:ℤ)) (AI.init 2 2).mines ∧
      Sentence.mark_mine { cells := {((0:ℤ), (0:ℤ))}, count := 1 }
          ((-5:ℤ), (100:ℤ)) =
        { cells := {((0:ℤ), (0:ℤ))}, count := 1 } :=
  ⟨(claim_C10_theorem (AI.init 2 2) ((-5:ℤ), (100:ℤ))).1.1,
    ((claim_C10_theorem (AI.init 2 2) ((-5:ℤ), (100:ℤ))).2.2
        { cells := {((0:ℤ), (0:ℤ))}, count := 1 } (by decide)).1⟩

end Minesweeper
